import Mathlib

/-!
Shallow embedding of `src/util/locks.h` (kudu): the reader-writer spinlock
`rw_spinlock` and the per-CPU sharded lock `percpu_rwlock`, together with
proofs of the specification's claims about them.

Sequential modelling conventions:
* machine state is passed explicitly; an operation returns its new state;
* a blocking acquisition is modelled as an `Option`: `none` means the call
  would spin forever in a sequential execution (the mode is unavailable);
* the race-detector events (`ANNOTATE_RWLOCK_*`) and the underlying
  semaphore acquire/release actions are recorded in an event trace, in the
  exact program order of `locks.h`;
* `percpu_rwlock` traces tag each event with the index of the shard it
  touches.
-/

/-- Modelled from the spec: `util/rw_semaphore.h` is not part of the provided
source, only its user `rw_spinlock` is.  Per the spec (§3, §4.2) the semaphore
holds a reader count and a writer flag: either zero writers and any number of
readers, or exactly one writer and zero readers. -/
structure rw_semaphore where
  readers : Nat
  writer : Bool
deriving DecidableEq, Repr

/-- The default-constructed (unlocked) semaphore. -/
def rw_semaphore.unlocked : rw_semaphore := ⟨0, false⟩

/-- Modelled from the spec: held in any mode (shared or exclusive). -/
def rw_semaphore.is_locked (s : rw_semaphore) : Bool :=
  s.readers != 0 || s.writer

/-- Modelled from the spec: held in exclusive mode. -/
def rw_semaphore.is_write_locked (s : rw_semaphore) : Bool :=
  s.writer

/-- Modelled from the spec: non-blocking exclusive acquisition; succeeds
exactly when no reader and no writer holds the semaphore, and on failure the
state is unchanged. -/
def rw_semaphore.try_lock (s : rw_semaphore) : Bool × rw_semaphore :=
  if s.is_locked then (false, s) else (true, ⟨0, true⟩)

/-- Modelled from the spec: blocking exclusive acquisition; available exactly
when the semaphore is fully unlocked (`none` = would block). -/
def rw_semaphore.lock (s : rw_semaphore) : Option rw_semaphore :=
  if s.is_locked then none else some ⟨0, true⟩

/-- Modelled from the spec: blocking shared acquisition; available exactly
when no writer holds the semaphore (`none` = would block). -/
def rw_semaphore.lock_shared (s : rw_semaphore) : Option rw_semaphore :=
  if s.writer then none else some ⟨s.readers + 1, false⟩

/-- Modelled from the spec: exclusive release (caller must hold exclusive). -/
def rw_semaphore.unlock (s : rw_semaphore) : rw_semaphore :=
  ⟨s.readers, false⟩

/-- Modelled from the spec: shared release (caller must hold shared). -/
def rw_semaphore.unlock_shared (s : rw_semaphore) : rw_semaphore :=
  ⟨s.readers - 1, s.writer⟩

/-- Observable events of one `rw_spinlock` operation, in program order:
the underlying semaphore actions and the race-detector events.
`annAcquired`/`annReleased` carry the slot id used by the code
(0 = shared mode, 1 = exclusive mode). -/
inductive Event where
  | semAcquireShared
  | semAcquireExcl
  | semTryAcquireExcl (ok : Bool)
  | semReleaseShared
  | semReleaseExcl
  | annAcquired (slot : Nat)
  | annReleased (slot : Nat)
deriving DecidableEq, Repr

/-- `rw_spinlock` wraps an `rw_semaphore` (locks.h line 111); the detector
annotations are recorded only in the event traces. -/
structure rw_spinlock where
  sem : rw_semaphore
deriving DecidableEq, Repr

/-- `rw_spinlock::lock_shared`: `sem_.lock_shared();` then
`ANNOTATE_RWLOCK_ACQUIRED(this, 0);`. -/
def rw_spinlock.lock_shared (l : rw_spinlock) : Option (rw_spinlock × List Event) :=
  (l.sem.lock_shared).map fun s =>
    (⟨s⟩, [Event.semAcquireShared, Event.annAcquired 0])

/-- `rw_spinlock::unlock_shared`: `ANNOTATE_RWLOCK_RELEASED(this, 0);` then
`sem_.unlock_shared();`. -/
def rw_spinlock.unlock_shared (l : rw_spinlock) : rw_spinlock × List Event :=
  (⟨l.sem.unlock_shared⟩, [Event.annReleased 0, Event.semReleaseShared])

/-- `rw_spinlock::try_lock`: `bool ret = sem_.try_lock(); if (ret) {
ANNOTATE_RWLOCK_ACQUIRED(this, 1); } return ret;`. -/
def rw_spinlock.try_lock (l : rw_spinlock) : Bool × rw_spinlock × List Event :=
  let r := l.sem.try_lock
  if r.1 then
    (true, ⟨r.2⟩, [Event.semTryAcquireExcl true, Event.annAcquired 1])
  else
    (false, ⟨r.2⟩, [Event.semTryAcquireExcl false])

/-- `rw_spinlock::lock`: `sem_.lock();` then
`ANNOTATE_RWLOCK_ACQUIRED(this, 1);`. -/
def rw_spinlock.lock (l : rw_spinlock) : Option (rw_spinlock × List Event) :=
  (l.sem.lock).map fun s =>
    (⟨s⟩, [Event.semAcquireExcl, Event.annAcquired 1])

/-- `rw_spinlock::unlock`: `ANNOTATE_RWLOCK_RELEASED(this, 1);` then
`sem_.unlock();`. -/
def rw_spinlock.unlock (l : rw_spinlock) : rw_spinlock × List Event :=
  (⟨l.sem.unlock⟩, [Event.annReleased 1, Event.semReleaseExcl])

/-- `rw_spinlock::is_write_locked`. -/
def rw_spinlock.is_write_locked (l : rw_spinlock) : Bool :=
  l.sem.is_write_locked

/-- `rw_spinlock::is_locked`. -/
def rw_spinlock.is_locked (l : rw_spinlock) : Bool :=
  l.sem.is_locked

/-- A default-constructed (unlocked) `rw_spinlock`. -/
def rw_spinlock.unlocked : rw_spinlock := ⟨rw_semaphore.unlocked⟩

/-- `percpu_rwlock`: the shard array `padded_lock *locks_` (padding carries no
state; each `padded_lock` contributes exactly its `rw_spinlock lock` member).
`n_cpus_` is the length of the array. -/
structure percpu_rwlock where
  locks : List rw_spinlock
deriving DecidableEq, Repr

/-- The `percpu_rwlock` constructor: `errno = 0; n_cpus_ = base::NumCPUs();
CHECK_EQ(errno, 0); CHECK_GT(n_cpus_, 0); locks_ = new padded_lock[n_cpus_];`.
`errnoAfter` is the errno value after the `NumCPUs()` call and `n` the count
it returned (a C `int`).  A failed CHECK aborts the process: `none`. -/
def percpu_rwlock.construct (errnoAfter : Int) (n : Int) : Option percpu_rwlock :=
  if errnoAfter ≠ 0 then none
  else if n ≤ 0 then none
  else some ⟨List.replicate n.toNat rw_spinlock.unlocked⟩

/-- `percpu_rwlock::get_lock`: `int cpu = sched_getcpu();
CHECK_LT(cpu, n_cpus_); return locks_[cpu].lock;`.  The argument is the cpu id
returned by `sched_getcpu()` (a C `int`, possibly negative); the result is the
index the code uses into `locks_` (`none` = the CHECK aborted). -/
def percpu_rwlock.get_lock (p : percpu_rwlock) (cpu : Int) : Option Int :=
  if cpu < (p.locks.length : Int) then some cpu else none

/-- Body of the `percpu_rwlock::try_lock` loop, starting at shard index `i`:
try each shard in ascending order; on the first failure, unlock the
previously acquired shards in descending order (`while (i--) unlock`) and
return false. -/
def percpu_try_lock_aux : List rw_spinlock → Nat → Bool × List rw_spinlock × List (Nat × Event)
  | [], _ => (true, [], [])
  | l :: rest, i =>
    let r := l.try_lock
    let tagged := r.2.2.map fun e => (i, e)
    if r.1 then
      let rr := percpu_try_lock_aux rest (i + 1)
      if rr.1 then
        (true, r.2.1 :: rr.2.1, tagged ++ rr.2.2)
      else
        let u := r.2.1.unlock
        (false, u.1 :: rr.2.1, tagged ++ rr.2.2 ++ u.2.map fun e => (i, e))
    else
      (false, r.2.1 :: rest, tagged)

/-- `percpu_rwlock::try_lock`. -/
def percpu_rwlock.try_lock (p : percpu_rwlock) : Bool × percpu_rwlock × List (Nat × Event) :=
  let r := percpu_try_lock_aux p.locks 0
  (r.1, ⟨r.2.1⟩, r.2.2)

/-- Body of the `percpu_rwlock::lock` loop from shard index `i`: exclusive-lock
every shard in ascending order (`none` = some shard would block forever). -/
def percpu_lock_aux : List rw_spinlock → Nat → Option (List rw_spinlock × List (Nat × Event))
  | [], _ => some ([], [])
  | l :: rest, i =>
    (l.lock).bind fun r =>
      (percpu_lock_aux rest (i + 1)).map fun rr =>
        (r.1 :: rr.1, (r.2.map fun e => (i, e)) ++ rr.2)

/-- `percpu_rwlock::lock`. -/
def percpu_rwlock.lock (p : percpu_rwlock) : Option (percpu_rwlock × List (Nat × Event)) :=
  (percpu_lock_aux p.locks 0).map fun r => (⟨r.1⟩, r.2)

/-- Body of the `percpu_rwlock::unlock` loop from shard index `i`: release
every shard in ascending order. -/
def percpu_unlock_aux : List rw_spinlock → Nat → List rw_spinlock × List (Nat × Event)
  | [], _ => ([], [])
  | l :: rest, i =>
    let r := l.unlock
    let rr := percpu_unlock_aux rest (i + 1)
    (r.1 :: rr.1, (r.2.map fun e => (i, e)) ++ rr.2)

/-- `percpu_rwlock::unlock`. -/
def percpu_rwlock.unlock (p : percpu_rwlock) : percpu_rwlock × List (Nat × Event) :=
  let r := percpu_unlock_aux p.locks 0
  (⟨r.1⟩, r.2)

/-- `percpu_rwlock::is_locked`: true if any shard reports held. -/
def percpu_rwlock.is_locked (p : percpu_rwlock) : Bool :=
  p.locks.any fun l => l.is_locked

/-! Trace vocabulary used to state the ordering claims. -/

/-- The two events a successful shard `try_lock` emits, tagged with shard `i`. -/
def succEv (i : Nat) : List (Nat × Event) :=
  [(i, Event.semTryAcquireExcl true), (i, Event.annAcquired 1)]

/-- The two events a shard `unlock` emits, tagged with shard `i`. -/
def relEv (i : Nat) : List (Nat × Event) :=
  [(i, Event.annReleased 1), (i, Event.semReleaseExcl)]

/-- Trace of a failing `percpu_rwlock::try_lock` that first fails after `m`
successful shards, with shard numbering starting at `k`: `m` successes in
ascending order, the failing attempt, then `m` rollback releases in
descending order. -/
def failTrace (k : Nat) : Nat → List (Nat × Event)
  | 0 => [(k, Event.semTryAcquireExcl false)]
  | m + 1 => succEv k ++ failTrace (k + 1) m ++ relEv k

/-- Trace of a fully successful `percpu_rwlock::try_lock` over `m` shards
numbered from `k`. -/
def succTrace (k : Nat) : Nat → List (Nat × Event)
  | 0 => []
  | m + 1 => succEv k ++ succTrace (k + 1) m

/-- Extract the shard index of an exclusive semaphore-release event. -/
def relExclIdx : Nat × Event → Option Nat
  | (i, Event.semReleaseExcl) => some i
  | _ => none

/-- Extract the shard index of a blocking exclusive semaphore-acquire event. -/
def acqExclIdx : Nat × Event → Option Nat
  | (i, Event.semAcquireExcl) => some i
  | _ => none

/-- Is this event a successful semaphore acquisition? -/
def is_sem_acquire : Event → Bool
  | Event.semAcquireShared => true
  | Event.semAcquireExcl => true
  | Event.semTryAcquireExcl ok => ok
  | _ => false

/-- Is this event a semaphore release? -/
def is_sem_release : Event → Bool
  | Event.semReleaseShared => true
  | Event.semReleaseExcl => true
  | _ => false

/-- Is this event a race-detector acquired event? -/
def is_ann_acquired : Event → Bool
  | Event.annAcquired _ => true
  | _ => false

/-- Is this event a race-detector released event? -/
def is_ann_released : Event → Bool
  | Event.annReleased _ => true
  | _ => false

/-- The detector-ordering contract for a single operation's trace: every
acquired annotation comes strictly after every successful semaphore
acquisition of the operation, and every released annotation comes strictly
before every semaphore release of the operation. -/
def ann_ordered (tr : List Event) : Prop :=
  (∀ i j : Fin tr.length,
      is_ann_acquired (tr.get i) = true → is_sem_acquire (tr.get j) = true → j < i) ∧
  (∀ i j : Fin tr.length,
      is_ann_released (tr.get i) = true → is_sem_release (tr.get j) = true → i < j)

instance (tr : List Event) : Decidable (ann_ordered tr) := by
  unfold ann_ordered; infer_instance

/-! Multi-thread usage model of `rw_spinlock`, for the mutual-exclusion
claim.  The shared lock state is the `rw_semaphore`; alongside it we track
how many threads currently hold the lock in each mode.  A step is one thread
completing one lock operation; blocking operations can only fire when the
modelled semaphore grants them, and a release step requires a matching
holder (the spec makes releasing without holding undefined behavior). -/

/-- Global state of one `rw_spinlock` shared by any number of threads:
the semaphore state plus the count of threads holding each mode. -/
structure lock_usage_state where
  sem : rw_semaphore
  shared_holders : Nat
  excl_holders : Nat
deriving DecidableEq, Repr

/-- The initial state: freshly constructed lock, no holders. -/
def lock_usage_state.init : lock_usage_state := ⟨rw_semaphore.unlocked, 0, 0⟩

/-- One thread completes one `rw_spinlock` operation. -/
inductive lock_step : lock_usage_state → lock_usage_state → Prop where
  | acquire_shared {st : lock_usage_state} {s' : rw_semaphore} :
      st.sem.lock_shared = some s' →
      lock_step st ⟨s', st.shared_holders + 1, st.excl_holders⟩
  | acquire_excl {st : lock_usage_state} {s' : rw_semaphore} :
      st.sem.lock = some s' →
      lock_step st ⟨s', st.shared_holders, st.excl_holders + 1⟩
  | try_acquire_excl {st : lock_usage_state} {s' : rw_semaphore} :
      st.sem.try_lock = (true, s') →
      lock_step st ⟨s', st.shared_holders, st.excl_holders + 1⟩
  | release_shared {st : lock_usage_state} :
      0 < st.shared_holders →
      lock_step st ⟨st.sem.unlock_shared, st.shared_holders - 1, st.excl_holders⟩
  | release_excl {st : lock_usage_state} :
      0 < st.excl_holders →
      lock_step st ⟨st.sem.unlock, st.shared_holders, st.excl_holders - 1⟩

/-- States reachable from the initial state by any interleaving of thread
operations. -/
def lock_reachable (st : lock_usage_state) : Prop :=
  Relation.ReflTransGen lock_step lock_usage_state.init st

/-- Coherence invariant of the multi-thread usage model: the semaphore's
fields mirror the holder counts, at most one exclusive holder, and an
exclusive holder excludes all shared holders. -/
def lock_inv (st : lock_usage_state) : Prop :=
  st.sem.readers = st.shared_holders ∧
  (st.sem.writer = true ↔ st.excl_holders = 1) ∧
  st.excl_holders ≤ 1 ∧
  (st.excl_holders = 1 → st.shared_holders = 0)

/-! Concrete states used as witnesses and counterexamples. -/

/-- A shard currently held in shared mode by one (other) reader. -/
def lockedSharedSpin : rw_spinlock := ⟨⟨1, false⟩⟩

/-- A one-shard lock whose only shard is held in shared mode. -/
def pOneLocked : percpu_rwlock := ⟨[lockedSharedSpin]⟩

/-- A four-shard lock, all shards unlocked. -/
def pFour : percpu_rwlock := ⟨List.replicate 4 rw_spinlock.unlocked⟩

/-- A two-shard lock, all shards unlocked. -/
def pTwo : percpu_rwlock := ⟨[rw_spinlock.unlocked, rw_spinlock.unlocked]⟩

/-- A four-shard lock with the shard at index 2 held in shared mode. -/
def pMix : percpu_rwlock :=
  ⟨[rw_spinlock.unlocked, rw_spinlock.unlocked, lockedSharedSpin, rw_spinlock.unlocked]⟩

/-- The usage-model state after one thread acquired shared mode. -/
def oneReaderState : lock_usage_state := ⟨⟨1, false⟩, 1, 0⟩

/-! Auxiliary lemmas. -/

lemma rw_semaphore.eq_unlocked_of_not_locked {s : rw_semaphore}
    (h : s.is_locked = false) : s = rw_semaphore.unlocked := by
  rcases s with ⟨r, w⟩
  simp only [rw_semaphore.is_locked, Bool.or_eq_false_iff, bne_eq_false_iff_eq] at h
  simp [rw_semaphore.unlocked, h.1, h.2]

lemma rw_spinlock.unlocked_of_not_held {l : rw_spinlock}
    (h : l.is_locked = false) : l = rw_spinlock.unlocked := by
  rcases l with ⟨s⟩
  have := rw_semaphore.eq_unlocked_of_not_locked (s := s) h
  simp [rw_spinlock.unlocked, this]

lemma rw_spinlock.try_lock_of_unlocked :
    rw_spinlock.unlocked.try_lock =
      (true, ⟨⟨0, true⟩⟩, [Event.semTryAcquireExcl true, Event.annAcquired 1]) := by
  simp [rw_spinlock.try_lock, rw_semaphore.try_lock, rw_spinlock.unlocked,
    rw_semaphore.unlocked, rw_semaphore.is_locked]

lemma rw_spinlock.try_lock_of_locked {l : rw_spinlock} (h : l.is_locked = true) :
    l.try_lock = (false, l, [Event.semTryAcquireExcl false]) := by
  simp [rw_spinlock.try_lock, rw_semaphore.try_lock, rw_spinlock.is_locked] at h ⊢
  simp [h]

lemma rw_spinlock.unlock_wlocked :
    (⟨⟨0, true⟩⟩ : rw_spinlock).unlock =
      (rw_spinlock.unlocked, [Event.annReleased 1, Event.semReleaseExcl]) := rfl

lemma percpu_try_lock_aux_success (L : List rw_spinlock) (k : Nat)
    (h : ∀ l ∈ L, l.is_locked = false) :
    percpu_try_lock_aux L k =
      (true, L.map fun _ => ⟨⟨0, true⟩⟩, succTrace k L.length) := by
  induction L generalizing k with
  | nil => simp [percpu_try_lock_aux, succTrace]
  | cons l rest ih =>
    have hl : l = rw_spinlock.unlocked :=
      rw_spinlock.unlocked_of_not_held (h l (by simp))
    have hrest : ∀ x ∈ rest, x.is_locked = false := fun x hx => h x (by simp [hx])
    subst hl
    simp [percpu_try_lock_aux, rw_spinlock.try_lock_of_unlocked, ih (k + 1) hrest,
      succTrace, succEv]

lemma percpu_try_lock_aux_fail (A : List rw_spinlock) (b : rw_spinlock)
    (C : List rw_spinlock) (k : Nat)
    (hA : ∀ a ∈ A, a.is_locked = false) (hb : b.is_locked = true) :
    percpu_try_lock_aux (A ++ b :: C) k = (false, A ++ b :: C, failTrace k A.length) := by
  induction A generalizing k with
  | nil =>
    simp [percpu_try_lock_aux, rw_spinlock.try_lock_of_locked hb, failTrace]
  | cons a A' ih =>
    have ha : a = rw_spinlock.unlocked :=
      rw_spinlock.unlocked_of_not_held (hA a (by simp))
    have hA' : ∀ x ∈ A', x.is_locked = false := fun x hx => hA x (by simp [hx])
    subst ha
    simp [percpu_try_lock_aux, rw_spinlock.try_lock_of_unlocked, ih (k + 1) hA',
      rw_spinlock.unlock_wlocked, failTrace, succEv, relEv]

lemma relExclIdx_failTrace (k m : Nat) :
    (failTrace k m).filterMap relExclIdx = (List.range' k m).reverse := by
  induction m generalizing k with
  | zero => simp [failTrace, relExclIdx]
  | succ m ih =>
    simp [failTrace, succEv, relEv, List.filterMap_append, relExclIdx, ih (k + 1),
      List.range'_succ]

lemma failTrace_idx_le (k m : Nat) :
    ∀ je ∈ failTrace k m, je.1 ≤ k + m := by
  induction m generalizing k with
  | zero => simp [failTrace]
  | succ m ih =>
    intro je hje
    simp only [failTrace, List.mem_append] at hje
    rcases hje with (h | h) | h
    · simp only [succEv, List.mem_cons, List.not_mem_nil, or_false] at h
      rcases h with h | h <;> subst h <;> exact Nat.le_add_right k (m + 1)
    · have := ih (k + 1) je h
      omega
    · simp only [relEv, List.mem_cons, List.not_mem_nil, or_false] at h
      rcases h with h | h <;> subst h <;> exact Nat.le_add_right k (m + 1)


lemma rw_semaphore.not_locked_elim {s : rw_semaphore} (h : s.is_locked = false) :
    s.readers = 0 ∧ s.writer = false := by
  have hu := rw_semaphore.eq_unlocked_of_not_locked h
  rw [hu]
  exact ⟨rfl, rfl⟩

lemma percpu_try_lock_aux_length (L : List rw_spinlock) (k : Nat) :
    (percpu_try_lock_aux L k).2.1.length = L.length := by
  induction L generalizing k with
  | nil => simp [percpu_try_lock_aux]
  | cons l rest ih =>
    simp only [percpu_try_lock_aux]
    split
    · split
      · simpa using ih (k + 1)
      · simpa using ih (k + 1)
    · simp

lemma percpu_lock_aux_elim {L : List rw_spinlock} {k : Nat}
    {res : List rw_spinlock × List (Nat × Event)}
    (h : percpu_lock_aux L k = some res) :
    res.1.length = L.length ∧ res.2.filterMap acqExclIdx = List.range' k L.length := by
  induction L generalizing k res with
  | nil =>
    simp [percpu_lock_aux] at h
    subst h
    simp
  | cons l rest ih =>
    rcases hl : l.lock with _ | r
    · simp [percpu_lock_aux, hl] at h
    · rcases hrest : percpu_lock_aux rest (k + 1) with _ | rr
      · simp [percpu_lock_aux, hl, hrest] at h
      · have h' : (r.1 :: rr.1, (r.2.map fun e => (k, e)) ++ rr.2) = res := by
          simpa [percpu_lock_aux, hl, hrest] using h
        subst h'
        obtain ⟨ih1, ih2⟩ := ih hrest
        have htr : r.2 = [Event.semAcquireExcl, Event.annAcquired 1] := by
          rcases hs : l.sem.lock with _ | s
          · simp [rw_spinlock.lock, hs] at hl
          · simp [rw_spinlock.lock, hs] at hl
            rw [← hl]
        constructor
        · simpa using ih1
        · simp [htr, List.filterMap_append, acqExclIdx, ih2, List.range'_succ]

lemma percpu_lock_aux_unlocked (L : List rw_spinlock) (k : Nat)
    (h : ∀ l ∈ L, l.is_locked = false) :
    ∃ tr, percpu_lock_aux L k = some (L.map fun _ => ⟨⟨0, true⟩⟩, tr) := by
  induction L generalizing k with
  | nil => exact ⟨[], by simp [percpu_lock_aux]⟩
  | cons l rest ih =>
    have hl : l = rw_spinlock.unlocked :=
      rw_spinlock.unlocked_of_not_held (h l (by simp))
    have hrest : ∀ x ∈ rest, x.is_locked = false := fun x hx => h x (by simp [hx])
    subst hl
    obtain ⟨tr, htr⟩ := ih (k + 1) hrest
    have hlock : rw_spinlock.unlocked.lock =
        some (⟨⟨0, true⟩⟩, [Event.semAcquireExcl, Event.annAcquired 1]) := rfl
    refine ⟨([(k, Event.semAcquireExcl), (k, Event.annAcquired 1)] ++ tr), ?_⟩
    simp [percpu_lock_aux, hlock, htr]

lemma percpu_unlock_aux_elim (L : List rw_spinlock) (k : Nat) :
    (percpu_unlock_aux L k).1 = L.map (fun l => (l.unlock).1) ∧
    (percpu_unlock_aux L k).2.filterMap relExclIdx = List.range' k L.length := by
  induction L generalizing k with
  | nil => simp [percpu_unlock_aux]
  | cons l rest ih =>
    obtain ⟨ih1, ih2⟩ := ih (k + 1)
    constructor
    · simp [percpu_unlock_aux, ih1]
    · simp [percpu_unlock_aux, rw_spinlock.unlock, List.filterMap_append,
        relExclIdx, ih2, List.range'_succ]

lemma map_const_eq_self {α : Type} {u : α} {L : List α} (h : ∀ a ∈ L, a = u) :
    L.map (fun _ => u) = L := by
  induction L with
  | nil => rfl
  | cons a t ih => simp_all

lemma lock_step_preserves {s t : lock_usage_state}
    (h : lock_step s t) (hs : lock_inv s) : lock_inv t := by
  obtain ⟨h1, h2, h3, h4⟩ := hs
  cases h with
  | @acquire_shared s' hl =>
    have hw : s.sem.writer = false := by
      by_contra hc
      simp only [Bool.not_eq_false] at hc
      simp [rw_semaphore.lock_shared, hc] at hl
    have hs' : s' = ⟨s.sem.readers + 1, false⟩ := by
      simp only [rw_semaphore.lock_shared, hw, Bool.false_eq_true, if_false,
        Option.some_inj] at hl
      exact hl.symm
    subst hs'
    have hex : s.excl_holders ≠ 1 := by
      intro he
      have := h2.mpr he
      rw [hw] at this
      exact Bool.false_ne_true this
    exact ⟨by simp; omega, by simp [hex], h3, fun he => absurd he hex⟩
  | @acquire_excl s' hl =>
    have hnl : s.sem.is_locked = false := by
      by_contra hc
      simp only [Bool.not_eq_false] at hc
      simp [rw_semaphore.lock, hc] at hl
    obtain ⟨hr, hw⟩ := rw_semaphore.not_locked_elim hnl
    have hs' : s' = ⟨0, true⟩ := by
      simp only [rw_semaphore.lock, hnl, Bool.false_eq_true, if_false,
        Option.some_inj] at hl
      exact hl.symm
    subst hs'
    have hex : s.excl_holders = 0 := by
      have hne : s.excl_holders ≠ 1 := by
        intro he
        have := h2.mpr he
        rw [hw] at this
        exact Bool.false_ne_true this
      omega
    have hsh : s.shared_holders = 0 := by omega
    exact ⟨by simp; omega, by simp; omega, by simp; omega, fun _ => hsh⟩
  | @try_acquire_excl s' hl =>
    have hnl : s.sem.is_locked = false := by
      by_contra hc
      simp only [Bool.not_eq_false] at hc
      simp [rw_semaphore.try_lock, hc] at hl
    obtain ⟨hr, hw⟩ := rw_semaphore.not_locked_elim hnl
    have hs' : s' = ⟨0, true⟩ := by
      simp only [rw_semaphore.try_lock, hnl, Bool.false_eq_true, if_false,
        Prod.mk.injEq, true_and] at hl
      exact hl.symm
    subst hs'
    have hex : s.excl_holders = 0 := by
      have hne : s.excl_holders ≠ 1 := by
        intro he
        have := h2.mpr he
        rw [hw] at this
        exact Bool.false_ne_true this
      omega
    have hsh : s.shared_holders = 0 := by omega
    exact ⟨by simp; omega, by simp; omega, by simp; omega, fun _ => hsh⟩
  | release_shared hsh =>
    refine ⟨?_, ?_, h3, ?_⟩
    · simp [rw_semaphore.unlock_shared]
      omega
    · simpa [rw_semaphore.unlock_shared] using h2
    · intro he
      have := h4 he
      omega
  | release_excl hex =>
    have he1 : s.excl_holders = 1 := by omega
    have hsh0 : s.shared_holders = 0 := h4 he1
    have hr : s.sem.readers = 0 := by omega
    refine ⟨?_, ?_, ?_, ?_⟩
    · simp [rw_semaphore.unlock]
      omega
    · simp [rw_semaphore.unlock]
      omega
    · simp
      omega
    · intro
      simpa using hsh0

lemma lock_reachable_inv {st : lock_usage_state} (h : lock_reachable st) :
    lock_inv st := by
  induction h with
  | refl =>
    exact ⟨rfl, by simp [lock_usage_state.init, rw_semaphore.unlocked],
      by simp [lock_usage_state.init], by simp [lock_usage_state.init]⟩
  | tail _ hstep ih => exact lock_step_preserves hstep ih

/-! Claim theorems. -/

/-- C1 counterexample: the claim asserts that after a failed
`percpu_rwlock::try_lock` every shard is unlocked and `is_locked()` is false;
but on a one-shard lock whose shard is held in shared mode by another thread,
`try_lock` returns false and `is_locked()` still returns true (the failing
shard is still held by its other holder). -/
theorem percpu_try_lock_fail_leaves_locked :
    (pOneLocked.try_lock).1 = false ∧
    ((pOneLocked.try_lock).2.1).is_locked = true :=
  ⟨by decide, by decide⟩

/-- C1 (amended): if every shard is free, `percpu_rwlock::try_lock` returns
true with every shard exclusively held; if the shards split as `A ++ b :: C`
with all of `A` free and `b` held (so the first shard-level failure is at
index `i = A.length`), it returns false, releases exactly the
previously-acquired shards `0..i-1` in descending index order, and leaves
every shard in its pre-call state. -/
theorem percpu_try_lock_all_or_nothing (p : percpu_rwlock) :
    ((∀ l ∈ p.locks, l.is_locked = false) →
        (p.try_lock).1 = true ∧
        ∀ l ∈ (p.try_lock).2.1.locks, l.is_write_locked = true) ∧
    (∀ A b C, p.locks = A ++ b :: C →
        (∀ a ∈ A, a.is_locked = false) → b.is_locked = true →
        (p.try_lock).1 = false ∧
        (p.try_lock).2.1 = p ∧
        ((p.try_lock).2.2).filterMap relExclIdx = (List.range A.length).reverse) := by
  constructor
  · intro h
    have haux := percpu_try_lock_aux_success p.locks 0 h
    constructor
    · simp [percpu_rwlock.try_lock, haux]
    · intro l hl
      simp only [percpu_rwlock.try_lock, haux, List.mem_map] at hl
      obtain ⟨x, _, hx⟩ := hl
      rw [← hx]
      rfl
  · intro A b C hdec hA hb
    rcases p with ⟨L⟩
    simp only at hdec
    subst hdec
    have hfail := percpu_try_lock_aux_fail A b C 0 hA hb
    refine ⟨?_, ?_, ?_⟩
    · simp [percpu_rwlock.try_lock, hfail]
    · simp [percpu_rwlock.try_lock, hfail]
    · simp only [percpu_rwlock.try_lock, hfail]
      rw [relExclIdx_failTrace, List.range_eq_range']

/-- C1 witness: on the four-shard lock whose first held shard is at index 2,
`try_lock` fails, restores the state, and its rollback releases are exactly
indices 1 then 0. -/
theorem percpu_try_lock_all_or_nothing_witness :
    (pMix.try_lock).1 = false ∧
    (pMix.try_lock).2.1 = pMix ∧
    ((pMix.try_lock).2.2).filterMap relExclIdx =
      (List.range ([rw_spinlock.unlocked, rw_spinlock.unlocked] : List rw_spinlock).length).reverse :=
  (percpu_try_lock_all_or_nothing pMix).2
    [rw_spinlock.unlocked, rw_spinlock.unlocked] lockedSharedSpin [rw_spinlock.unlocked]
    (by decide) (by decide) (by decide)

/-- C10: during a failing `percpu_rwlock::try_lock` whose first shard-level
failure is at index `i = A.length`, no event touches a shard of index greater
than `i`, and the shards past index `i` are unchanged. -/
theorem percpu_try_lock_frame (p : percpu_rwlock) :
    ∀ A b C, p.locks = A ++ b :: C →
      (∀ a ∈ A, a.is_locked = false) → b.is_locked = true →
      ((p.try_lock).2.2).all (fun je => decide (je.1 ≤ A.length)) = true ∧
      (p.try_lock).2.1.locks.drop (A.length + 1) = p.locks.drop (A.length + 1) := by
  intro A b C hdec hA hb
  rcases p with ⟨L⟩
  simp only at hdec
  subst hdec
  have hfail := percpu_try_lock_aux_fail A b C 0 hA hb
  constructor
  · simp only [percpu_rwlock.try_lock, hfail]
    rw [List.all_eq_true]
    intro je hje
    have := failTrace_idx_le 0 A.length je hje
    simp only [Nat.zero_add] at this
    simpa using this
  · simp [percpu_rwlock.try_lock, hfail]

/-- C10 witness: on the four-shard lock failing at index 2, every trace event
touches an index at most 2 and the shard at index 3 is untouched. -/
theorem percpu_try_lock_frame_witness :
    ((pMix.try_lock).2.2).all
        (fun je => decide (je.1 ≤ ([rw_spinlock.unlocked, rw_spinlock.unlocked] : List rw_spinlock).length)) = true ∧
    (pMix.try_lock).2.1.locks.drop
        (([rw_spinlock.unlocked, rw_spinlock.unlocked] : List rw_spinlock).length + 1) =
      pMix.locks.drop (([rw_spinlock.unlocked, rw_spinlock.unlocked] : List rw_spinlock).length + 1) :=
  percpu_try_lock_frame pMix
    [rw_spinlock.unlocked, rw_spinlock.unlocked] lockedSharedSpin [rw_spinlock.unlocked]
    (by decide) (by decide) (by decide)

/-- C2 counterexample: the claim asserts `get_lock` checks the cpu id lies in
`[0, N)` before indexing; but on a four-shard lock a cpu id of `-1` (the
error return of `sched_getcpu`) passes `CHECK_LT(cpu, n_cpus_)` and the call
indexes the shard array with the out-of-range index `-1`. -/
theorem get_lock_negative_cpu_passes_check :
    pFour.get_lock (-1) = some (-1) ∧ ¬(0 ≤ (-1 : Int)) :=
  ⟨by decide, by decide⟩

/-- C2 (amended): `percpu_rwlock::get_lock` asserts only the upper bound
`cpu < n_cpus_` before indexing: it aborts exactly when `cpu ≥ n_cpus_`, and
otherwise uses index `cpu` itself — including when `cpu` is negative, in
which case an out-of-range index is used. -/
theorem get_lock_checks_only_upper_bound (p : percpu_rwlock) (cpu : Int) :
    (p.get_lock cpu = some cpu ↔ cpu < (p.locks.length : Int)) ∧
    ((p.locks.length : Int) ≤ cpu → p.get_lock cpu = none) := by
  constructor
  · constructor
    · intro h
      by_contra hc
      simp [percpu_rwlock.get_lock, hc] at h
    · intro h
      simp [percpu_rwlock.get_lock, h]
  · intro h
    simp [percpu_rwlock.get_lock]
    omega

/-- C2 witness: on the four-shard lock, cpu id 5 fails the CHECK and aborts. -/
theorem get_lock_checks_only_upper_bound_witness :
    pFour.get_lock 5 = none :=
  (get_lock_checks_only_upper_bound pFour 5).2 (by decide)

/-- C9: the shard index `get_lock` selects depends only on the cpu id and the
shard count: two lock instances with the same count but arbitrary (different)
shard lock states select the same shard for the same cpu id, and an in-range
cpu id selects exactly the shard at that index. -/
theorem get_lock_depends_only_on_cpu :
    (∀ p q : percpu_rwlock, p.locks.length = q.locks.length →
        ∀ cpu : Int, p.get_lock cpu = q.get_lock cpu) ∧
    (∀ p : percpu_rwlock, ∀ cpu : Int, cpu < (p.locks.length : Int) →
        p.get_lock cpu = some cpu) := by
  constructor
  · intro p q hlen cpu
    simp [percpu_rwlock.get_lock, hlen]
  · intro p cpu h
    simp [percpu_rwlock.get_lock, h]

/-- C9 witness: `pMix` (one shard held) and `pFour` (all free) select the same
shard index for cpu 2. -/
theorem get_lock_depends_only_on_cpu_witness :
    pMix.get_lock 2 = pFour.get_lock 2 ∧ pFour.get_lock 2 = some 2 :=
  ⟨get_lock_depends_only_on_cpu.1 pMix pFour (by decide) 2,
   get_lock_depends_only_on_cpu.2 pFour 2 (by decide)⟩

/-- C4: `percpu_rwlock::lock` acquires every shard's exclusive lock in
ascending index order `0..N-1`, and `percpu_rwlock::unlock` releases every
shard's exclusive lock in ascending index order `0..N-1`. -/
theorem percpu_lock_unlock_ascending (p : percpu_rwlock) :
    (∀ res, p.lock = some res →
        res.2.filterMap acqExclIdx = List.range p.locks.length) ∧
    (p.unlock).2.filterMap relExclIdx = List.range p.locks.length := by
  constructor
  · intro res h
    rcases haux : percpu_lock_aux p.locks 0 with _ | r
    · simp [percpu_rwlock.lock, haux] at h
    · have h' : ((⟨r.1⟩ : percpu_rwlock), r.2) = res := by
        simpa [percpu_rwlock.lock, haux] using h
      rw [← h']
      have := (percpu_lock_aux_elim haux).2
      simpa [List.range_eq_range'] using this
  · have := (percpu_unlock_aux_elim p.locks 0).2
    simpa [percpu_rwlock.unlock, List.range_eq_range'] using this

/-- C4 witness: on the free two-shard lock, `lock` emits exclusive
acquisitions at indices 0 then 1, in order. -/
theorem percpu_lock_unlock_ascending_witness :
    (((⟨[⟨⟨0, true⟩⟩, ⟨⟨0, true⟩⟩]⟩ : percpu_rwlock),
        ([(0, Event.semAcquireExcl), (0, Event.annAcquired 1),
          (1, Event.semAcquireExcl), (1, Event.annAcquired 1)] : List (Nat × Event))).2.filterMap
        acqExclIdx =
      List.range pTwo.locks.length) :=
  (percpu_lock_unlock_ascending pTwo).1
    (⟨[⟨⟨0, true⟩⟩, ⟨⟨0, true⟩⟩]⟩,
      [(0, Event.semAcquireExcl), (0, Event.annAcquired 1),
        (1, Event.semAcquireExcl), (1, Event.annAcquired 1)])
    (by decide)

/-- C3: mutual exclusion of `rw_spinlock`: in every state reachable by any
interleaving of thread operations, at most one thread holds exclusive mode,
and an exclusive holder excludes all shared holders. -/
theorem rw_spinlock_mutual_exclusion (st : lock_usage_state)
    (h : lock_reachable st) :
    st.excl_holders ≤ 1 ∧ (0 < st.excl_holders → st.shared_holders = 0) := by
  obtain ⟨_, _, h3, h4⟩ := lock_reachable_inv h
  exact ⟨h3, fun hpos => h4 (by omega)⟩

/-- C3 witness: the state reached after one thread acquires shared mode
satisfies the exclusion property. -/
theorem rw_spinlock_mutual_exclusion_witness :
    oneReaderState.excl_holders ≤ 1 ∧
    (0 < oneReaderState.excl_holders → oneReaderState.shared_holders = 0) :=
  rw_spinlock_mutual_exclusion oneReaderState
    (Relation.ReflTransGen.tail Relation.ReflTransGen.refl
      (lock_step.acquire_shared (by decide)))

/-- C5: the `percpu_rwlock` constructor aborts exactly when the
processor-count service reports an error (`errno ≠ 0`) or a count `N ≤ 0`;
otherwise it allocates exactly `N` shards, each default-constructed unlocked,
and the shard count is preserved by every operation. -/
theorem percpu_construct_spec :
    (∀ e n : Int, e ≠ 0 ∨ n ≤ 0 → percpu_rwlock.construct e n = none) ∧
    (∀ n : Int, 0 < n →
        percpu_rwlock.construct 0 n =
          some ⟨List.replicate n.toNat rw_spinlock.unlocked⟩ ∧
        ((List.replicate n.toNat rw_spinlock.unlocked).length : Int) = n ∧
        ∀ l ∈ List.replicate n.toNat rw_spinlock.unlocked, l.is_locked = false) ∧
    (∀ p : percpu_rwlock,
        (p.try_lock).2.1.locks.length = p.locks.length ∧
        (p.unlock).1.locks.length = p.locks.length ∧
        ∀ res, p.lock = some res → res.1.locks.length = p.locks.length) := by
  refine ⟨?_, ?_, ?_⟩
  · intro e n h
    unfold percpu_rwlock.construct
    split
    · rfl
    · split
      · rfl
      · rename_i he hn
        rcases h with h | h
        · exact absurd h he
        · exact absurd h hn
  · intro n hn
    refine ⟨?_, ?_, ?_⟩
    · unfold percpu_rwlock.construct
      rw [if_neg (by omega), if_neg (by omega)]
    · rw [List.length_replicate, Int.toNat_of_nonneg (by omega)]
    · intro l hl
      rw [List.eq_of_mem_replicate hl]
      rfl
  · intro p
    refine ⟨?_, ?_, ?_⟩
    · simpa [percpu_rwlock.try_lock] using percpu_try_lock_aux_length p.locks 0
    · simp [percpu_rwlock.unlock, (percpu_unlock_aux_elim p.locks 0).1]
    · intro res h
      rcases haux : percpu_lock_aux p.locks 0 with _ | r
      · simp [percpu_rwlock.lock, haux] at h
      · have h' : ((⟨r.1⟩ : percpu_rwlock), r.2) = res := by
          simpa [percpu_rwlock.lock, haux] using h
        rw [← h']
        simpa using (percpu_lock_aux_elim haux).1

/-- C5 witness: a reported error aborts, a non-positive count aborts, and a
count of 4 yields four unlocked shards. -/
theorem percpu_construct_spec_witness :
    percpu_rwlock.construct 1 4 = none ∧
    percpu_rwlock.construct 0 (-2) = none ∧
    percpu_rwlock.construct 0 4 =
      some ⟨List.replicate (4 : Int).toNat rw_spinlock.unlocked⟩ :=
  ⟨percpu_construct_spec.1 1 4 (Or.inl (by decide)),
   percpu_construct_spec.1 0 (-2) (Or.inr (by decide)),
   (percpu_construct_spec.2.1 4 (by decide)).1⟩

/-- C6: in every `rw_spinlock` operation, each detector acquired event is
emitted strictly after the underlying semaphore acquisition succeeded, and
each detector released event strictly before the underlying semaphore
release. -/
theorem rw_spinlock_ann_ordering (l : rw_spinlock) :
    (∀ res, l.lock_shared = some res → ann_ordered res.2) ∧
    ann_ordered (l.unlock_shared).2 ∧
    (∀ res, l.lock = some res → ann_ordered res.2) ∧
    ann_ordered (l.unlock).2 ∧
    ann_ordered (l.try_lock).2.2 := by
  refine ⟨?_, ?_, ?_, ?_, ?_⟩
  · intro res h
    rcases hs : l.sem.lock_shared with _ | s
    · simp [rw_spinlock.lock_shared, hs] at h
    · have htr : res.2 = [Event.semAcquireShared, Event.annAcquired 0] := by
        simp only [rw_spinlock.lock_shared, hs, Option.map_some', Option.some.injEq] at h
        rw [← h]
      rw [htr]
      decide
  · show ann_ordered [Event.annReleased 0, Event.semReleaseShared]
    decide
  · intro res h
    rcases hs : l.sem.lock with _ | s
    · simp [rw_spinlock.lock, hs] at h
    · have htr : res.2 = [Event.semAcquireExcl, Event.annAcquired 1] := by
        simp only [rw_spinlock.lock, hs, Option.map_some', Option.some.injEq] at h
        rw [← h]
      rw [htr]
      decide
  · show ann_ordered [Event.annReleased 1, Event.semReleaseExcl]
    decide
  · rcases hl : l.sem.is_locked with _ | _
    · have ht : (l.try_lock).2.2 =
          [Event.semTryAcquireExcl true, Event.annAcquired 1] := by
        simp [rw_spinlock.try_lock, rw_semaphore.try_lock, hl]
      rw [ht]
      decide
    · have ht : (l.try_lock).2.2 = [Event.semTryAcquireExcl false] := by
        simp [rw_spinlock.try_lock, rw_semaphore.try_lock, hl]
      rw [ht]
      decide

/-- C6 witness: the trace of a successful `lock_shared` on an unlocked
spinlock is correctly ordered. -/
theorem rw_spinlock_ann_ordering_witness :
    ann_ordered (((⟨⟨1, false⟩⟩ : rw_spinlock),
      [Event.semAcquireShared, Event.annAcquired 0]) : rw_spinlock × List Event).2 :=
  (rw_spinlock_ann_ordering rw_spinlock.unlocked).1
    (⟨⟨1, false⟩⟩, [Event.semAcquireShared, Event.annAcquired 0]) (by decide)

/-- C7: `rw_spinlock::try_lock` returns exactly the underlying semaphore's
result, emits the exclusive (slot 1) acquired event exactly when that result
is success, and on failure changes no state and emits no detector event. -/
theorem rw_spinlock_try_lock_spec (l : rw_spinlock) :
    (l.try_lock).1 = (l.sem.try_lock).1 ∧
    ((Event.annAcquired 1 ∈ (l.try_lock).2.2) ↔ (l.try_lock).1 = true) ∧
    ((l.try_lock).1 = false →
        (l.try_lock).2.1 = l ∧
        ∀ e ∈ (l.try_lock).2.2,
          is_ann_acquired e = false ∧ is_ann_released e = false) := by
  rcases hl : l.sem.is_locked with _ | _
  · have ht : l.try_lock =
        (true, ⟨⟨0, true⟩⟩, [Event.semTryAcquireExcl true, Event.annAcquired 1]) := by
      simp [rw_spinlock.try_lock, rw_semaphore.try_lock, hl]
    refine ⟨?_, ?_, ?_⟩
    · rw [ht]
      simp [rw_semaphore.try_lock, hl]
    · rw [ht]
      simp
    · rw [ht]
      intro h
      simp at h
  · have ht : l.try_lock = (false, l, [Event.semTryAcquireExcl false]) :=
      rw_spinlock.try_lock_of_locked hl
    refine ⟨?_, ?_, ?_⟩
    · rw [ht]
      simp [rw_semaphore.try_lock, hl]
    · rw [ht]
      simp
    · rw [ht]
      intro _
      refine ⟨rfl, ?_⟩
      intro e he
      simp only [List.mem_cons, List.not_mem_nil, or_false] at he
      rw [he]
      exact ⟨rfl, rfl⟩

/-- C7 witness: on a shard held in shared mode, `try_lock` fails, leaves the
state unchanged, and emits no detector event. -/
theorem rw_spinlock_try_lock_spec_witness :
    (lockedSharedSpin.try_lock).2.1 = lockedSharedSpin ∧
    ∀ e ∈ (lockedSharedSpin.try_lock).2.2,
      is_ann_acquired e = false ∧ is_ann_released e = false :=
  (rw_spinlock_try_lock_spec lockedSharedSpin).2.2 (by decide)

/-- C8: for a single thread on an uncontended lock, the pair `lock(); unlock();`
and the pair `lock_shared(); unlock_shared();` restore the pre-pair state with
`is_locked() = false`, both for `rw_spinlock` and for `percpu_rwlock`. -/
theorem lock_unlock_roundtrip :
    (∀ l : rw_spinlock, l.is_locked = false →
        (l.lock).map (fun res => ((res.1.unlock).1, ((res.1.unlock).1).is_locked)) =
          some (l, false)) ∧
    (∀ l : rw_spinlock, l.is_locked = false →
        (l.lock_shared).map
            (fun res => ((res.1.unlock_shared).1, ((res.1.unlock_shared).1).is_locked)) =
          some (l, false)) ∧
    (∀ p : percpu_rwlock, (∀ l ∈ p.locks, l.is_locked = false) →
        (p.lock).map (fun res => ((res.1.unlock).1, ((res.1.unlock).1).is_locked)) =
          some (p, false)) := by
  refine ⟨?_, ?_, ?_⟩
  · intro l h
    rw [rw_spinlock.unlocked_of_not_held h]
    decide
  · intro l h
    rw [rw_spinlock.unlocked_of_not_held h]
    decide
  · rintro ⟨L⟩ h
    simp only at h
    obtain ⟨tr, htr⟩ := percpu_lock_aux_unlocked L 0 h
    have hall : ∀ l ∈ L, l = rw_spinlock.unlocked := fun l hl =>
      rw_spinlock.unlocked_of_not_held (h l hl)
    have hplock : percpu_rwlock.lock ⟨L⟩ =
        some (⟨L.map fun _ => ⟨⟨0, true⟩⟩⟩, tr) := by
      simp [percpu_rwlock.lock, htr]
    rw [hplock]
    have hst : ((⟨L.map fun _ => ⟨⟨0, true⟩⟩⟩ : percpu_rwlock).unlock).1 =
        (⟨L⟩ : percpu_rwlock) := by
      have h1 := (percpu_unlock_aux_elim (L.map fun _ => ⟨⟨0, true⟩⟩) 0).1
      simp only [percpu_rwlock.unlock, h1, List.map_map]
      have hc : ((fun l => (rw_spinlock.unlock l).1) ∘ fun _ : rw_spinlock =>
          (⟨⟨0, true⟩⟩ : rw_spinlock)) = fun _ : rw_spinlock => rw_spinlock.unlocked := rfl
      rw [hc, map_const_eq_self hall]
    rw [Option.map_some']
    simp only [hst]
    have hlocked : (⟨L⟩ : percpu_rwlock).is_locked = false := by
      simp only [percpu_rwlock.is_locked, List.any_eq_false]
      intro l hl
      simpa using h l hl
    rw [hlocked]

/-- C8 witness: the exclusive round trip on an unlocked `rw_spinlock`
restores the unlocked state. -/
theorem lock_unlock_roundtrip_witness :
    (rw_spinlock.unlocked.lock).map
        (fun res => ((res.1.unlock).1, ((res.1.unlock).1).is_locked)) =
      some (rw_spinlock.unlocked, false) :=
  lock_unlock_roundtrip.1 rw_spinlock.unlocked (by decide)
